import Mathlib

/-!
Verification of the environment-variable diff/patch tool (`src/main.rs`).

Rust `BTreeMap<String, V>` values are embedded as association lists
`List (String × V)`; the BTreeMap invariant (keys strictly sorted, hence
without duplicates) is carried as an explicit `Nodup` hypothesis where a
theorem needs it.  `lookupKV` models `BTreeMap::get`, `insertKV` models
`BTreeMap::insert` (overwrite when the key is present), and list order
models iteration order.  All statements about generated patches are made
through `lookupKV` and key membership, which are insensitive to entry
order, so the difference between sorted-insert and append-insert is
immaterial to every claim below.
-/

/-- `BTreeMap::get`: first binding of the key, if any. -/
def lookupKV {α : Type} : List (String × α) → String → Option α
  | [], _ => none
  | (k, v) :: rest, key => if key = k then some v else lookupKV rest key

/-- `BTreeMap::contains_key`. -/
def containsKey {α : Type} (m : List (String × α)) (k : String) : Bool :=
  (lookupKV m k).isSome

/-- `BTreeMap::insert`: overwrite the binding when the key is present,
append it otherwise. -/
def insertKV {α : Type} : List (String × α) → String → α → List (String × α)
  | [], k, v => [(k, v)]
  | (k', v') :: rest, k, v =>
    if k = k' then (k, v) :: rest else (k', v') :: insertKV rest k v

/-- A flattened per-environment variable set, `BTreeMap<String, String>`
in the source. -/
abbrev VarMap := List (String × String)

/-- Rust enum `Environment` (`main.rs` lines 15-19). -/
inductive Environment where
  | production
  | preview
deriving DecidableEq, Repr

/-- Rust enum `CloudflarePagesEnvVarValueType` (lines 137-141): the only
variable kind the tool can construct. -/
inductive CloudflarePagesEnvVarValueType where
  | plain_text
deriving DecidableEq, Repr

/-- Rust struct `CloudflarePagesEnvVarValue` (lines 131-135). -/
structure CloudflarePagesEnvVarValue where
  type : CloudflarePagesEnvVarValueType
  value : String
deriving DecidableEq, Repr

/-- Rust struct `CloudflarePagesEnvironment` (lines 126-129):
`env_vars : Option<BTreeMap<String, Option<CloudflarePagesEnvVarValue>>>`. -/
structure CloudflarePagesEnvironment where
  env_vars : Option (List (String × Option CloudflarePagesEnvVarValue))
deriving DecidableEq, Repr

/-- Rust struct `CloudflarePagesDeploymentConfigs` (lines 120-124). -/
structure CloudflarePagesDeploymentConfigs where
  preview : CloudflarePagesEnvironment
  production : CloudflarePagesEnvironment
deriving DecidableEq, Repr

/-- Rust struct `FullEnvVarsFile` (lines 143-147). -/
structure FullEnvVarsFile where
  production : VarMap
  preview : VarMap
deriving DecidableEq, Repr

/-- Rust struct `EnvVarsFile` (lines 149-153): either section may be
absent. -/
structure EnvVarsFile where
  production : Option VarMap
  preview : Option VarMap
deriving DecidableEq, Repr

/-- `impl FromStr for Environment` (lines 155-165).  The Rust `match` on
the string is written as the equivalent equality chain. -/
def Environment.from_str (s : String) : Except String Environment :=
  if s = "production" then .ok .production
  else if s = "preview" then .ok .preview
  else .error "unknown value"

/-- `impl Serialize for Environment` (lines 180-190): the string the
serializer emits. -/
def Environment.serialize : Environment → String
  | .production => "production"
  | .preview => "preview"

/-- `From<CloudflarePagesEnvironment> for BTreeMap<String, String>`
(lines 407-422): absent `env_vars` becomes the empty map; each entry's
optional value is unwrapped with `unwrap_or_default()` (the default
`String` is `""`). -/
def CloudflarePagesEnvironment.toVarMap (e : CloudflarePagesEnvironment) : VarMap :=
  match e.env_vars with
  | some env_vars =>
    env_vars.map fun kv =>
      (kv.1, match kv.2 with
             | some var_value => var_value.value
             | none => "")
  | none => []

/-- `generate_env_patch` (lines 446-488): the diff engine for one
environment.  `old_env` is the flattened current remote state, `new_env`
the desired state (absent means "leave untouched"). -/
def generate_env_patch (old_env : VarMap) (new_env : Option VarMap) :
    CloudflarePagesEnvironment :=
  let changes : List (String × Option CloudflarePagesEnvVarValue) :=
    match new_env with
    | some ne =>
      -- Finds new and changed variables
      let changes₁ :=
        (ne.filter fun kv =>
            match lookupKV old_env kv.1 with
            | some old_value =>
              -- Keep the patch minimal: do not generate entry if not necessary
              kv.2 != old_value
            | none =>
              -- This is a new env var
              true).foldl
          (fun acc kv =>
            insertKV acc kv.1
              (some ⟨CloudflarePagesEnvVarValueType.plain_text, kv.2⟩))
          []
      -- Finds removed variables and generates null entries
      (old_env.filter fun kv => !containsKey ne kv.1).foldl
        (fun acc kv => insertKV acc kv.1 none) changes₁
    | none => []
  ⟨some changes⟩

/-- `generate_deployment_configs_patch` (lines 436-444). -/
def generate_deployment_configs_patch (old_vars : FullEnvVarsFile)
    (new_vars : EnvVarsFile) : CloudflarePagesDeploymentConfigs :=
  { preview := generate_env_patch old_vars.preview new_vars.preview
    production := generate_env_patch old_vars.production new_vars.production }

/-- `CloudflarePagesDeploymentConfigs::is_empty` (lines 374-387). -/
def CloudflarePagesDeploymentConfigs.is_empty
    (c : CloudflarePagesDeploymentConfigs) : Bool :=
  let is_preview_empty :=
    match c.preview.env_vars with
    | some preview => preview.isEmpty
    | none => true
  let is_production_empty :=
    match c.production.env_vars with
    | some production => production.isEmpty
    | none => true
  is_preview_empty && is_production_empty

/-- `From<CloudflarePagesDeploymentConfigs> for FullEnvVarsFile`
(lines 389-396). -/
def CloudflarePagesDeploymentConfigs.toFullEnvVarsFile
    (value : CloudflarePagesDeploymentConfigs) : FullEnvVarsFile :=
  { production := value.production.toVarMap
    preview := value.preview.toVarMap }

/-- Outcome of the push pipeline after the fresh remote state has been
fetched: either no changes were detected (nothing is submitted) or the
computed patch is submitted. -/
inductive PushOutcome where
  | no_changes
  | submitted (patch : CloudflarePagesDeploymentConfigs)
deriving DecidableEq, Repr

/-- The local decision logic of `SetEnvVars::run` (lines 306-329), with
the network abstracted away: compute the patch from the freshly fetched
remote state and the local desired file; if it `is_empty`, report a
no-op and submit nothing, otherwise submit it. -/
def set_env_vars_push (existing_vars : FullEnvVarsFile)
    (new_vars : EnvVarsFile) : PushOutcome :=
  let patch := generate_deployment_configs_patch existing_vars new_vars
  if patch.is_empty then .no_changes else .submitted patch

/-- The changes map of a generated patch section (its `env_vars` field,
which `generate_env_patch` always fills with `some`). -/
def patch_changes (old_env : VarMap) (new_env : Option VarMap) :
    List (String × Option CloudflarePagesEnvVarValue) :=
  ((generate_env_patch old_env new_env).env_vars).getD []

section MapLemmas

variable {α β : Type}

theorem lookupKV_insertKV_self (m : List (String × α)) (k : String) (v : α) :
    lookupKV (insertKV m k v) k = some v := by
  induction m with
  | nil => simp [insertKV, lookupKV]
  | cons hd tl ih =>
    by_cases h : k = hd.1
    · simp [insertKV, lookupKV, h]
    · simp [insertKV, lookupKV, h, ih]

theorem lookupKV_insertKV_ne (m : List (String × α)) (k n : String) (v : α)
    (h : n ≠ k) : lookupKV (insertKV m k v) n = lookupKV m n := by
  induction m with
  | nil => simp [insertKV, lookupKV, h]
  | cons hd tl ih =>
    by_cases hk : k = hd.1
    · subst hk
      simp [insertKV, lookupKV, h]
    · simp only [insertKV, if_neg hk]
      by_cases hn : n = hd.1
      · simp [lookupKV, hn]
      · simp [lookupKV, hn, ih]

theorem mem_keys_insertKV (m : List (String × α)) (k n : String) (v : α) :
    n ∈ (insertKV m k v).map Prod.fst ↔ n ∈ m.map Prod.fst ∨ n = k := by
  induction m with
  | nil => simp [insertKV]
  | cons hd tl ih =>
    simp only [insertKV]
    split
    next h =>
      subst h
      simp only [List.map_cons, List.mem_cons]
      tauto
    next h =>
      simp only [List.map_cons, List.mem_cons, ih]
      tauto

theorem mem_of_lookupKV_eq_some {m : List (String × α)} {n : String} {v : α}
    (h : lookupKV m n = some v) : (n, v) ∈ m := by
  induction m with
  | nil => simp [lookupKV] at h
  | cons hd tl ih =>
    by_cases hn : n = hd.1
    · simp only [lookupKV, if_pos hn] at h
      subst hn
      obtain rfl : v = hd.2 := by injection h with h; exact h.symm
      exact List.mem_cons_self _ _
    · simp only [lookupKV, if_neg hn] at h
      exact List.mem_cons_of_mem _ (ih h)

theorem lookupKV_isSome_of_mem {m : List (String × α)} {n : String} {v : α}
    (h : (n, v) ∈ m) : (lookupKV m n).isSome = true := by
  induction m with
  | nil => simp at h
  | cons hd tl ih =>
    rcases List.mem_cons.mp h with h | h
    · simp [lookupKV, ← h]
    · by_cases hn : n = hd.1
      · simp [lookupKV, hn]
      · simp only [lookupKV, if_neg hn]
        exact ih h

theorem lookupKV_eq_none_iff (m : List (String × α)) (n : String) :
    lookupKV m n = none ↔ n ∉ m.map Prod.fst := by
  induction m with
  | nil => simp [lookupKV]
  | cons hd tl ih =>
    by_cases hn : n = hd.1
    · simp [lookupKV, hn]
    · simp [lookupKV, hn, ih, Ne.symm]

theorem lookupKV_eq_some_of_mem_nodup {m : List (String × α)} {n : String}
    {v : α} (hnd : (m.map Prod.fst).Nodup) (hmem : (n, v) ∈ m) :
    lookupKV m n = some v := by
  induction m with
  | nil => simp at hmem
  | cons hd tl ih =>
    simp only [List.map_cons, List.nodup_cons] at hnd
    rcases List.mem_cons.mp hmem with h | h
    · simp [lookupKV, ← h]
    · have hn : n ≠ hd.1 := by
        intro hcontra
        exact hnd.1 (hcontra ▸ (List.mem_map.mpr ⟨(n, v), h, rfl⟩))
      simp only [lookupKV, if_neg hn]
      exact ih hnd.2 h

theorem lookupKV_foldl_insertKV_of_not_mem {l : List (String × α)}
    {n : String} (f : String × α → β) (init : List (String × β))
    (hn : n ∉ l.map Prod.fst) :
    lookupKV (l.foldl (fun acc kv => insertKV acc kv.1 (f kv)) init) n =
      lookupKV init n := by
  induction l generalizing init with
  | nil => rfl
  | cons hd tl ih =>
    simp only [List.map_cons, List.mem_cons, not_or] at hn
    simp only [List.foldl_cons]
    rw [ih _ hn.2, lookupKV_insertKV_ne _ _ _ _ hn.1]

theorem lookupKV_foldl_insertKV_of_mem {l : List (String × α)} {e : String × α}
    (f : String × α → β) (init : List (String × β))
    (hnd : (l.map Prod.fst).Nodup) (hmem : e ∈ l) :
    lookupKV (l.foldl (fun acc kv => insertKV acc kv.1 (f kv)) init) e.1 =
      some (f e) := by
  induction l generalizing init with
  | nil => simp at hmem
  | cons hd tl ih =>
    simp only [List.map_cons, List.nodup_cons] at hnd
    simp only [List.foldl_cons]
    rcases List.mem_cons.mp hmem with h | h
    · subst h
      rw [lookupKV_foldl_insertKV_of_not_mem _ _ hnd.1,
        lookupKV_insertKV_self]
    · exact ih _ hnd.2 h

theorem not_mem_keys_foldl_insertKV {l : List (String × α)} {n : String}
    (f : String × α → β) (init : List (String × β))
    (hinit : n ∉ init.map Prod.fst) (hl : n ∉ l.map Prod.fst) :
    n ∉ (l.foldl (fun acc kv => insertKV acc kv.1 (f kv)) init).map Prod.fst := by
  induction l generalizing init with
  | nil => exact hinit
  | cons hd tl ih =>
    simp only [List.map_cons, List.mem_cons, not_or] at hl
    simp only [List.foldl_cons]
    refine ih _ ?_ hl.2
    rw [mem_keys_insertKV]
    tauto

end MapLemmas

/-- A hexadecimal digit character, lowercase, as used by
`serde_json`'s control-character escapes. -/
def hex_digit (n : Nat) : Char :=
  if n < 10 then Char.ofNat (48 + n) else Char.ofNat (87 + n)

/-- The escaping of one character inside a JSON string literal as
performed by `serde_json::to_string` on a `String`: quote and backslash
get two-character escapes, the five named control characters get their
short escapes, any other control character below `0x20` gets a
`\u00XX` escape, and every remaining character is emitted as itself. -/
def json_escape_char (c : Char) : String :=
  if c = '\"' then "\\\""
  else if c = '\\' then "\\\\"
  else if c = Char.ofNat 8 then "\\b"
  else if c = Char.ofNat 12 then "\\f"
  else if c = '\n' then "\\n"
  else if c = Char.ofNat 13 then "\\r"
  else if c = '\t' then "\\t"
  else if c.toNat < 32 then
    "\\u00" ++ String.singleton (hex_digit (c.toNat / 16)) ++
      String.singleton (hex_digit (c.toNat % 16))
  else String.singleton c

/-- `serde_json::to_string` applied to a string value: the JSON string
literal, surrounding quotes included. -/
def json_encode_string (s : String) : String :=
  "\"" ++ String.join (s.data.map json_escape_char) ++ "\""

/-- The pure core of `ToEnvFile::run` (lines 335-372): select the
requested environment's section of the local file, fail with
`"empty environment"` when it is absent, and otherwise build the output
buffer with one line per variable, iterated in map order (which for the
source's `BTreeMap` is sorted name order): `NAME=""` when the
names-only flag is set, `NAME=<JSON-encoded value>` otherwise, each
followed by a newline. -/
def to_env_file_run (environment : Environment) (names_only : Bool)
    (all_vars : EnvVarsFile) : Except String String :=
  let target_env_vars :=
    match environment with
    | .production => all_vars.production
    | .preview => all_vars.preview
  match target_env_vars with
  | none => .error "empty environment"
  | some target_env_vars =>
    .ok (target_env_vars.foldl
      (fun buffer kv =>
        if names_only then buffer ++ (kv.1 ++ "=\"\"\n")
        else buffer ++ (kv.1 ++ "=" ++ json_encode_string kv.2 ++ "\n"))
      "")

theorem lookupKV_map_value {α β : Type} (g : α → β)
    (l : List (String × α)) (n : String) :
    lookupKV (l.map fun kv => (kv.1, g kv.2)) n = (lookupKV l n).map g := by
  induction l with
  | nil => rfl
  | cons hd tl ih =>
    by_cases hn : n = hd.1
    · simp [lookupKV, hn]
    · simp [lookupKV, hn, ih]

theorem string_foldl_append_init (l : List String) (init : String) :
    l.foldl (fun r s => r ++ s) init = init ++ l.foldl (fun r s => r ++ s) "" := by
  induction l generalizing init with
  | nil => simp [String.append_empty]
  | cons hd tl ih =>
    rw [List.foldl_cons, List.foldl_cons, ih (init ++ hd), ih ("" ++ hd),
      String.empty_append, String.append_assoc]

theorem string_join_cons (hd : String) (tl : List String) :
    String.join (hd :: tl) = hd ++ String.join tl := by
  show List.foldl _ "" _ = _
  rw [List.foldl_cons, string_foldl_append_init, String.empty_append]
  rfl

theorem foldl_append_init {α : Type} (g : α → String) (l : List α)
    (init : String) :
    l.foldl (fun buffer a => buffer ++ g a) init =
      init ++ l.foldl (fun buffer a => buffer ++ g a) "" := by
  induction l generalizing init with
  | nil => simp [String.append_empty]
  | cons hd tl ih =>
    rw [List.foldl_cons, List.foldl_cons, ih (init ++ g hd), ih ("" ++ g hd),
      String.empty_append, String.append_assoc]

theorem foldl_append_eq_join {α : Type} (g : α → String) (l : List α) :
    l.foldl (fun buffer a => buffer ++ g a) "" = String.join (l.map g) := by
  induction l with
  | nil => rfl
  | cons hd tl ih =>
    rw [List.foldl_cons, foldl_append_init, String.empty_append, ih,
      List.map_cons, string_join_cons]

theorem patch_changes_some (old_env ne : VarMap) :
    patch_changes old_env (some ne) =
      (old_env.filter fun kv => !containsKey ne kv.1).foldl
        (fun acc kv => insertKV acc kv.1 none)
        ((ne.filter fun kv =>
            match lookupKV old_env kv.1 with
            | some old_value => kv.2 != old_value
            | none => true).foldl
          (fun acc kv =>
            insertKV acc kv.1
              (some ⟨CloudflarePagesEnvVarValueType.plain_text, kv.2⟩))
          []) := rfl

theorem patch_changes_none (old_env : VarMap) :
    patch_changes old_env none = [] := rfl

/-- C1: a name bound to the same value in both the current and the
present desired map contributes no entry at all to the generated patch
section: it is not among the changes map's keys and its lookup is
`none`. -/
theorem unchanged_name_absent_from_patch (old_env ne : VarMap) (n v : String)
    (hnd : (ne.map Prod.fst).Nodup)
    (hold : lookupKV old_env n = some v)
    (hnew : lookupKV ne n = some v) :
    n ∉ (patch_changes old_env (some ne)).map Prod.fst ∧
      lookupKV (patch_changes old_env (some ne)) n = none := by
  have hkey : n ∉ (patch_changes old_env (some ne)).map Prod.fst := by
    rw [patch_changes_some]
    apply not_mem_keys_foldl_insertKV
    · apply not_mem_keys_foldl_insertKV
      · simp
      · intro hmem
        obtain ⟨e, he, hfst⟩ := List.mem_map.mp hmem
        rw [List.mem_filter] at he
        have hlook : lookupKV ne e.1 = some e.2 :=
          lookupKV_eq_some_of_mem_nodup hnd he.1
        rw [hfst, hnew] at hlook
        have hval : e.2 = v := by injection hlook with h; exact h.symm
        have hpred := he.2
        rw [hfst, hold] at hpred
        simp only [hval] at hpred
        simp at hpred
    · intro hmem
      obtain ⟨e, he, hfst⟩ := List.mem_map.mp hmem
      rw [List.mem_filter] at he
      have hpred := he.2
      rw [hfst] at hpred
      simp only [containsKey, hnew] at hpred
      simp at hpred
  exact ⟨hkey, (lookupKV_eq_none_iff _ _).mpr hkey⟩

/-- C1 witness at a concrete input: with current `{"A": "1", "B": "2"}`
and desired `{"A": "1", "C": "3"}` the unchanged name `"A"` is absent
from the patch. -/
theorem unchanged_name_absent_from_patch_witness :
    "A" ∉ (patch_changes [("A", "1"), ("B", "2")]
        (some [("A", "1"), ("C", "3")])).map Prod.fst ∧
      lookupKV (patch_changes [("A", "1"), ("B", "2")]
        (some [("A", "1"), ("C", "3")])) "A" = none :=
  unchanged_name_absent_from_patch [("A", "1"), ("B", "2")]
    [("A", "1"), ("C", "3")] "A" "1" (by decide) (by decide) (by decide)

/-- C2: a name whose desired value is absent from the current map or
differs from its current value appears in the generated patch section as
`Some` of the desired plain-text value — including when the desired
value is the empty string. -/
theorem changed_name_in_patch (old_env ne : VarMap) (n v : String)
    (hnd : (ne.map Prod.fst).Nodup)
    (hnew : lookupKV ne n = some v)
    (hdiff : lookupKV old_env n ≠ some v) :
    lookupKV (patch_changes old_env (some ne)) n =
      some (some ⟨CloudflarePagesEnvVarValueType.plain_text, v⟩) := by
  rw [patch_changes_some]
  have h1 : n ∉ (old_env.filter fun kv => !containsKey ne kv.1).map Prod.fst := by
    intro hmem
    obtain ⟨e, he, hfst⟩ := List.mem_map.mp hmem
    rw [List.mem_filter] at he
    have hpred := he.2
    rw [hfst] at hpred
    simp only [containsKey, hnew] at hpred
    simp at hpred
  have h2 : (((ne.filter fun kv =>
      match lookupKV old_env kv.1 with
      | some old_value => kv.2 != old_value
      | none => true)).map Prod.fst).Nodup :=
    hnd.sublist ((List.filter_sublist _).map Prod.fst)
  have h3 : (n, v) ∈ ne.filter fun kv =>
      match lookupKV old_env kv.1 with
      | some old_value => kv.2 != old_value
      | none => true := by
    rw [List.mem_filter]
    refine ⟨mem_of_lookupKV_eq_some hnew, ?_⟩
    cases hcase : lookupKV old_env n with
    | none => simp [hcase]
    | some ov =>
      have : ov ≠ v := fun hcontra => hdiff (hcontra ▸ hcase)
      simp [hcase, bne, Ne.symm this]
  rw [lookupKV_foldl_insertKV_of_not_mem (fun _ => none) _ h1]
  exact lookupKV_foldl_insertKV_of_mem
    (fun kv : String × String =>
      some (CloudflarePagesEnvVarValue.mk CloudflarePagesEnvVarValueType.plain_text kv.2))
    _ h2 h3

/-- C2 witness at a concrete input: a value changed to the empty string
is emitted as an update, not a deletion. -/
theorem changed_name_in_patch_witness :
    lookupKV (patch_changes [("A", "x")] (some [("A", ""), ("C", "3")])) "A" =
      some (some ⟨CloudflarePagesEnvVarValueType.plain_text, ""⟩) :=
  changed_name_in_patch [("A", "x")] [("A", ""), ("C", "3")] "A" ""
    (by decide) (by decide) (by decide)

/-- C3: a name present in the current map but absent from the present
desired map appears in the generated patch section as a `None`
(deletion) entry; and when the desired map is absent the changes map is
empty, so no deletion entry exists for any name. -/
theorem removed_name_deleted_in_patch :
    (∀ (old_env ne : VarMap) (n : String),
        (old_env.map Prod.fst).Nodup →
        n ∈ old_env.map Prod.fst →
        lookupKV ne n = none →
        lookupKV (patch_changes old_env (some ne)) n = some none)
    ∧ (∀ (old_env : VarMap) (n : String),
        lookupKV (patch_changes old_env none) n = none) := by
  constructor
  · intro old_env ne n hnd hmem habs
    rw [patch_changes_some]
    obtain ⟨e, he, hfst⟩ := List.mem_map.mp hmem
    have hpred : (!containsKey ne e.1) = true := by
      rw [hfst]
      simp [containsKey, habs]
    have h2 : (((old_env.filter fun kv => !containsKey ne kv.1)).map Prod.fst).Nodup :=
      hnd.sublist ((List.filter_sublist _).map Prod.fst)
    have h3 : e ∈ old_env.filter fun kv => !containsKey ne kv.1 :=
      List.mem_filter.mpr ⟨he, hpred⟩
    have := lookupKV_foldl_insertKV_of_mem
      (fun _ : String × String => (none : Option CloudflarePagesEnvVarValue))
      ((ne.filter fun kv =>
          match lookupKV old_env kv.1 with
          | some old_value => kv.2 != old_value
          | none => true).foldl
        (fun acc kv =>
          insertKV acc kv.1
            (some (CloudflarePagesEnvVarValue.mk
              CloudflarePagesEnvVarValueType.plain_text kv.2)))
        []) h2 h3
    rw [hfst] at this
    exact this
  · intro old_env n
    rw [patch_changes_none]
    rfl

/-- C3 witness at a concrete input: with current `{"A": "1", "B": "2"}`
and desired `{"B": "2", "C": "3"}`, the removed name `"A"` gets a
deletion entry. -/
theorem removed_name_deleted_in_patch_witness :
    lookupKV (patch_changes [("A", "1"), ("B", "2")]
      (some [("B", "2"), ("C", "3")])) "A" = some none :=
  removed_name_deleted_in_patch.1 [("A", "1"), ("B", "2")] [("B", "2"), ("C", "3")]
    "A" (by decide) (by decide) (by decide)

/-- C4: when the desired map is absent, `generate_env_patch` returns a
section whose changes map is present and empty, for every current
map. -/
theorem absent_desired_yields_empty_changes (old_env : VarMap) :
    generate_env_patch old_env none = ⟨some []⟩ := rfl

/-- C9: the `env_vars` field of every patch section produced by
`generate_env_patch` is `some` of a map — never the absent state the
remote shape allows — for both present and absent desired maps. -/
theorem patch_env_vars_always_present (old_env : VarMap)
    (new_env : Option VarMap) :
    ∃ m, (generate_env_patch old_env new_env).env_vars = some m := by
  cases new_env with
  | none => exact ⟨[], rfl⟩
  | some ne => exact ⟨_, rfl⟩

/-- C10: every `Some` entry of a generated patch section carries the
plain-text kind, the only constructible variable kind. -/
theorem patch_entries_plain_text (old_env : VarMap) (new_env : Option VarMap)
    (n : String) (val : CloudflarePagesEnvVarValue)
    (h : lookupKV (patch_changes old_env new_env) n = some (some val)) :
    val.type = CloudflarePagesEnvVarValueType.plain_text := by
  cases val with
  | mk t v => cases t; rfl

/-- C10 witness at a concrete input: the entry generated for a new
variable carries the plain-text kind. -/
theorem patch_entries_plain_text_witness :
    (CloudflarePagesEnvVarValue.mk CloudflarePagesEnvVarValueType.plain_text "x").type =
      CloudflarePagesEnvVarValueType.plain_text :=
  patch_entries_plain_text [] (some [("A", "x")]) "A"
    ⟨CloudflarePagesEnvVarValueType.plain_text, "x"⟩ (by decide)

theorem generate_env_patch_eq (old_env : VarMap) (new_env : Option VarMap) :
    generate_env_patch old_env new_env =
      ⟨some (patch_changes old_env new_env)⟩ := by
  cases new_env <;> rfl

theorem patch_changes_self (m : VarMap) (hnd : (m.map Prod.fst).Nodup) :
    patch_changes m (some m) = [] := by
  have hf1 : (m.filter fun kv =>
      match lookupKV m kv.1 with
      | some old_value => kv.2 != old_value
      | none => true) = [] := by
    rw [List.filter_eq_nil_iff]
    intro e he
    rw [lookupKV_eq_some_of_mem_nodup hnd he]
    simp
  have hf2 : (m.filter fun kv => !containsKey m kv.1) = [] := by
    rw [List.filter_eq_nil_iff]
    intro e he
    simp [containsKey, lookupKV_isSome_of_mem he]
  rw [patch_changes_some, hf1, hf2]
  rfl

/-- C5: the combined patch is `is_empty` exactly when both the preview
and the production section's changes map is empty or absent; whenever
the computed patch is empty, the push pipeline reports a no-op and
submits nothing; and the patch built from `current == desired` on both
environments is empty. -/
theorem empty_patch_skips_submission :
    (∀ c : CloudflarePagesDeploymentConfigs,
        c.is_empty = true ↔
          ((c.preview.env_vars = none ∨ c.preview.env_vars = some []) ∧
            (c.production.env_vars = none ∨ c.production.env_vars = some [])))
    ∧ (∀ (existing_vars : FullEnvVarsFile) (new_vars : EnvVarsFile),
        (generate_deployment_configs_patch existing_vars new_vars).is_empty = true →
          set_env_vars_push existing_vars new_vars = PushOutcome.no_changes)
    ∧ (∀ f : FullEnvVarsFile,
        (f.production.map Prod.fst).Nodup →
        (f.preview.map Prod.fst).Nodup →
          (generate_deployment_configs_patch f
            ⟨some f.production, some f.preview⟩).is_empty = true) := by
  refine ⟨?_, ?_, ?_⟩
  · intro c
    obtain ⟨⟨pv⟩, ⟨pd⟩⟩ := c
    cases pv <;> cases pd <;>
      simp [CloudflarePagesDeploymentConfigs.is_empty, List.isEmpty_iff]
  · intro existing_vars new_vars h
    simp [set_env_vars_push, h]
  · intro f hp hq
    have e1 : generate_env_patch f.production (some f.production) = ⟨some []⟩ := by
      rw [generate_env_patch_eq, patch_changes_self f.production hp]
    have e2 : generate_env_patch f.preview (some f.preview) = ⟨some []⟩ := by
      rw [generate_env_patch_eq, patch_changes_self f.preview hq]
    simp [generate_deployment_configs_patch,
      CloudflarePagesDeploymentConfigs.is_empty, e1, e2]

/-- C5 witness at a concrete input: pushing a desired state equal to the
current state is reported as a no-op. -/
theorem empty_patch_skips_submission_witness :
    set_env_vars_push ⟨[("A", "1")], [("B", "2")]⟩
      ⟨some [("A", "1")], some [("B", "2")]⟩ = PushOutcome.no_changes :=
  empty_patch_skips_submission.2.1 ⟨[("A", "1")], [("B", "2")]⟩
    ⟨some [("A", "1")], some [("B", "2")]⟩
    (empty_patch_skips_submission.2.2 ⟨[("A", "1")], [("B", "2")]⟩
      (by decide) (by decide))

/-- C6: the conversion from a remote environment config to a flat
variable map yields the empty map when `env_vars` is absent; when
present it maps each name to the entry's contained value, with an
absent inner value collapsing to the empty string — so
`{"A": {type: plain_text, value: "x"}}` converts to `{"A": "x"}` and an
absent-valued entry is indistinguishable from an empty-string one. -/
theorem remote_environment_to_var_map :
    (CloudflarePagesEnvironment.toVarMap ⟨none⟩ = [])
    ∧ (∀ (l : List (String × Option CloudflarePagesEnvVarValue)) (n : String),
        lookupKV (CloudflarePagesEnvironment.toVarMap ⟨some l⟩) n =
          (lookupKV l n).map fun ov =>
            match ov with
            | some var_value => var_value.value
            | none => "")
    ∧ (CloudflarePagesEnvironment.toVarMap
        ⟨some [("A", some ⟨CloudflarePagesEnvVarValueType.plain_text, "x"⟩)]⟩ =
        [("A", "x")])
    ∧ (∀ n : String,
        CloudflarePagesEnvironment.toVarMap ⟨some [(n, none)]⟩ =
          CloudflarePagesEnvironment.toVarMap
            ⟨some [(n, some ⟨CloudflarePagesEnvVarValueType.plain_text, ""⟩)]⟩) := by
  refine ⟨rfl, ?_, rfl, fun n => rfl⟩
  intro l n
  exact lookupKV_map_value
    (fun ov =>
      match ov with
      | some var_value => var_value.value
      | none => "")
    l n

/-- C7: parsing an environment name succeeds exactly on `"production"`
and `"preview"`, which map to the two enumeration values; serialization
emits exactly those strings, and parsing a serialized value
round-trips. -/
theorem environment_parse_round_trip :
    (Environment.from_str "production" = Except.ok Environment.production)
    ∧ (Environment.from_str "preview" = Except.ok Environment.preview)
    ∧ (∀ s : String, s ≠ "production" → s ≠ "preview" →
        Environment.from_str s = Except.error "unknown value")
    ∧ (Environment.serialize Environment.production = "production")
    ∧ (Environment.serialize Environment.preview = "preview")
    ∧ (∀ e : Environment,
        Environment.from_str (Environment.serialize e) = Except.ok e) := by
  refine ⟨rfl, rfl, ?_, rfl, rfl, ?_⟩
  · intro s h1 h2
    unfold Environment.from_str
    rw [if_neg h1, if_neg h2]
  · intro e
    cases e <;> rfl

/-- C7 witness at a concrete input: a string that is neither
`"production"` nor `"preview"` is a parse error. -/
theorem environment_parse_round_trip_witness :
    Environment.from_str "staging" = Except.error "unknown value" :=
  environment_parse_round_trip.2.2.1 "staging" (by decide) (by decide)

/-- C8: the renderer fails with the "empty environment" error whenever
the selected environment's section is absent from the local file (it
never silently succeeds with empty output), and when the section is
present it succeeds with one line per variable in map order (sorted
name order under the `BTreeMap` invariant): `NAME=""` in names-only
mode and `NAME=<JSON-string-encoded value>` otherwise, each line
newline-terminated; in particular the spec's example renders to two
quoted, escaped lines. -/
theorem env_file_render :
    (∀ (b : Bool) (f : EnvVarsFile), f.production = none →
        to_env_file_run Environment.production b f =
          Except.error "empty environment")
    ∧ (∀ (b : Bool) (f : EnvVarsFile), f.preview = none →
        to_env_file_run Environment.preview b f =
          Except.error "empty environment")
    ∧ (∀ (b : Bool) (f : EnvVarsFile) (m : VarMap), f.production = some m →
        to_env_file_run Environment.production b f =
          Except.ok (String.join (m.map fun kv =>
            if b then kv.1 ++ "=\"\"\n"
            else kv.1 ++ "=" ++ json_encode_string kv.2 ++ "\n")))
    ∧ (∀ (b : Bool) (f : EnvVarsFile) (m : VarMap), f.preview = some m →
        to_env_file_run Environment.preview b f =
          Except.ok (String.join (m.map fun kv =>
            if b then kv.1 ++ "=\"\"\n"
            else kv.1 ++ "=" ++ json_encode_string kv.2 ++ "\n")))
    ∧ (to_env_file_run Environment.production false
        ⟨some [("A", "x"), ("B", "y\"z")], none⟩ =
        Except.ok "A=\"x\"\nB=\"y\\\"z\"\n") := by
  refine ⟨?_, ?_, ?_, ?_, ?_⟩
  · intro b f h
    simp [to_env_file_run, h]
  · intro b f h
    simp [to_env_file_run, h]
  · intro b f m h
    cases b <;> simp [to_env_file_run, h] <;> rw [foldl_append_eq_join]
  · intro b f m h
    cases b <;> simp [to_env_file_run, h] <;> rw [foldl_append_eq_join]
  · rfl

/-- C8 witness at a concrete input: a file whose production section is
absent makes the renderer fail rather than render empty output. -/
theorem env_file_render_witness :
    to_env_file_run Environment.production false ⟨none, some [("A", "x")]⟩ =
      Except.error "empty environment" :=
  env_file_render.1 false ⟨none, some [("A", "x")]⟩ rfl
